import Mathlib

/-!
Verification development for the optopus position reconciliation engine
(`optopus/data_manager.py`).  The Python source is shallowly embedded:
enumeration classes become inductive types, `PositionData` / `TradeData` /
`OptionData` become structures, the `DataManager`'s mutable dictionaries
become association lists with Python-dict (insertion-order preserving)
update semantics, and each method of `DataManager` becomes a Lean function
on an explicit state.  Fallible operations return the mutated state
together with an optional error mirroring the Python exception that would
propagate (`KeyError`, `ValueError` from unpacking, `NameError`), while
operations whose source wraps the body in a swallowing `try/except`
return no error by construction.
-/

namespace Optopus

/-- Modelled from the spec: `optopus/data_objects.py` is not in src.  The
asset type enumeration carries broker-style string values used inside
composite keys (§4.1 of the spec requires deterministic string values). -/
inductive AssetType
  | stock
  | option
  | index
deriving DecidableEq

def AssetType.value : AssetType → String
  | .stock => "STK"
  | .option => "OPT"
  | .index => "IND"

/-- Modelled from the spec: `optopus/data_objects.py` is not in src.  Option
right enumeration; the spec scenario (§8) names the value "CALL". -/
inductive OptionRight
  | call
  | put
deriving DecidableEq

def OptionRight.value : OptionRight → String
  | .call => "CALL"
  | .put => "PUT"

/-- Modelled from the spec: `optopus/data_objects.py` is not in src.
Ownership (long/short) enumeration with string values. -/
inductive OwnershipType
  | buyer
  | seller
deriving DecidableEq

def OwnershipType.value : OwnershipType → String
  | .buyer => "BUY"
  | .seller => "SELL"

/-- Decimal rendering of a natural number, most significant digit first.
Modelled from the spec: `format_ib_date` and Python's `str` on floats live
in `optopus/utils.py` / the runtime, neither of which is in src; dates are
embedded as their `YYYYMMDD` numeral and strikes as a numeral, both
rendered by this injective digit string (the spec only requires a
deterministic, stable rendering, §4.1). -/
def natStr (n : Nat) : String :=
  String.mk (((Nat.digits 10 n).map Nat.digitChar).reverse)

def charToDigit (c : Char) : Nat := c.toNat - 48

/-- Modelled from the spec: `format_ib_date` (in `optopus/utils.py`, not in
src) renders an expiration date; the date is embedded as its `YYYYMMDD`
numeral. -/
def format_ib_date (d : Nat) : String := natStr d

/-- `expiration = format_ib_date(expiration) if expiration else 'NA'`
(data_manager.py line 223). -/
def expirationStr : Option Nat → String
  | some d => format_ib_date d
  | none => "NA"

/-- `strike = str(strike) if not is_nan(strike) else 'NA'` (line 224); a NaN
strike is embedded as `none`. -/
def strikeStr : Option Nat → String
  | some s => natStr s
  | none => "NA"

/-- `right = right.value if right else 'NA'` (line 225). -/
def rightStr : Option OptionRight → String
  | some r => r.value
  | none => "NA"

/-- `ownership = ownership.value if ownership else 'NA'` (line 222). -/
def ownershipStr : Option OwnershipType → String
  | some o => o.value
  | none => "NA"

/-- `DataManager._position_key` (data_manager.py lines 198-230): the six
fields joined with underscores, optional fields replaced by the literal
sentinel "NA". -/
def position_key (code : String) (asset_type : AssetType)
    (expiration : Option Nat) (strike : Option Nat)
    (right : Option OptionRight) (ownership : Option OwnershipType) : String :=
  code ++ "_" ++ asset_type.value ++ "_" ++ expirationStr expiration ++ "_"
    ++ strikeStr strike ++ "_" ++ rightStr right ++ "_" ++ ownershipStr ownership

/-- Modelled from the spec: `optopus/data_objects.py` is not in src.  An
immutable trade record (§3): keying fields, the data-source identifier, and
the denormalized attribution payload. -/
structure TradeData where
  code : String
  asset_type : AssetType
  expiration : Option Nat
  strike : Option Nat
  right : Option OptionRight
  ownership : Option OwnershipType
  data_source_id : Nat
  price : Int
  time : Nat
  algorithm : String
  strategy_type : String
  strategy_id : String
  rol : String
deriving DecidableEq

/-- Modelled from the spec: `optopus/data_objects.py` is not in src.  A
position record (§3): identity fields, quantity, the ordered trade
sequence, and the derived economics fields (initially unset). -/
structure PositionData where
  code : String
  asset_type : AssetType
  expiration : Option Nat
  strike : Option Nat
  right : Option OptionRight
  ownership : Option OwnershipType
  quantity : Int
  trades : List TradeData
  option_price : Option Int
  underlying_price : Option Int
  delta : Option Int
  DTE : Option Int
  trade_price : Option Int
  trade_time : Option Nat
  algorithm : Option String
  strategy_type : Option String
  strategy_id : Option String
  rol : Option String
  beta : Option Int
deriving DecidableEq

/-- Modelled from the spec: result element of the data source's
`create_options` call, carrying the option's identity and current
economics. -/
structure OptionData where
  code : String
  asset_type : AssetType
  expiration : Option Nat
  strike : Option Nat
  right : Option OptionRight
  option_price : Int
  underlying_price : Int
  delta : Int
  DTE : Int
deriving DecidableEq

/-- Modelled from the spec: the broker adapter (not in src) delivers a
position event carrying the six identity fields and the quantity (§4.3);
the record it constructs has an empty trade sequence and unset economics. -/
structure PositionEvent where
  code : String
  asset_type : AssetType
  expiration : Option Nat
  strike : Option Nat
  right : Option OptionRight
  ownership : Option OwnershipType
  quantity : Int
deriving DecidableEq

def PositionEvent.record (e : PositionEvent) : PositionData :=
  { code := e.code, asset_type := e.asset_type, expiration := e.expiration,
    strike := e.strike, right := e.right, ownership := e.ownership,
    quantity := e.quantity, trades := [], option_price := none,
    underlying_price := none, delta := none, DTE := none, trade_price := none,
    trade_time := none, algorithm := none, strategy_type := none,
    strategy_id := none, rol := none, beta := none }

/-- The in-memory positions dict: association list in insertion order with
Python-dict update semantics. -/
abbrev Ledger := List (String × PositionData)

/-- Python dict lookup `d[k]`. -/
def lookupL (k : String) : Ledger → Option PositionData
  | [] => none
  | kp :: t => if kp.1 = k then some kp.2 else lookupL k t

/-- Python membership `k in d.keys()`. -/
def containsL (k : String) : Ledger → Bool
  | [] => false
  | kp :: t => if kp.1 = k then true else containsL k t

def replaceL (k : String) (v : PositionData) : Ledger → Ledger
  | [] => []
  | kp :: t => if kp.1 = k then (k, v) :: replaceL k v t else kp :: replaceL k v t

/-- Python dict assignment `d[k] = v` (also in-place mutation of the stored
record): replaces the binding in place preserving iteration order when the
key is present, else appends. -/
def insertL (k : String) (v : PositionData) (l : Ledger) : Ledger :=
  if containsL k l then replaceL k v l else l ++ [(k, v)]

/-- Python exceptions that the DataManager methods can raise, named by the
spec's taxonomy (§7): KeyError on the positions dict = UnknownPosition,
ValueError from the one-element unpacking in `update_positions` =
AmbiguousLookup, KeyError on the assets dict, NameError from the dangling
loop variable in `update_strategies`, and the account's UnknownAttribute. -/
inductive DMError
  | unknownPosition
  | ambiguousLookup
  | unknownAsset
  | nameError
  | unknownAttribute
deriving DecidableEq

/-- Modelled from the spec: `optopus/account.py` is not in src.  The account
snapshot is a single mutable object with independently updatable named
attributes (§3, §4.4); three representative numeric attributes are used. -/
structure Account where
  buying_power : Int
  cash : Int
  funds : Int
deriving DecidableEq

/-- An account-item event: attribute name and new value. -/
structure AccountItem where
  tag : String
  value : Int
deriving DecidableEq

/-- Modelled from the spec: `Account.update_item_value` (account.py, not in
src) sets the named attribute, or raises UnknownAttribute for an
unrecognized name without touching any state (§4.4). -/
def Account.update_item_value (a : Account) (item : AccountItem) : Except DMError Account :=
  if item.tag = "buying_power" then .ok { a with buying_power := item.value }
  else if item.tag = "cash" then .ok { a with cash := item.value }
  else if item.tag = "funds" then .ok { a with funds := item.value }
  else .error .unknownAttribute

/-- Modelled from the spec: `optopus/strategy.py` is not in src.  A strategy
aggregate with a type tag, a strategy id and the attached positions (§3). -/
structure Strategy where
  strategy_type : Option String
  strategy_id : Option String
  positions : List PositionData
deriving DecidableEq

def Strategy.add_position (s : Strategy) (p : PositionData) : Strategy :=
  { s with positions := s.positions ++ [p] }

/-- Modelled from the spec: `StrategyFactory.create_strategy` builds an
empty strategy aggregate from a type tag and id. -/
def create_strategy (stype : Option String) (sid : Option String) : Strategy :=
  { strategy_type := stype, strategy_id := sid, positions := [] }

/-- The DataManager's mutable state: the positions dict, the strategies
dict (keyed by the Strategy objects themselves, hence modelled as the list
of stored objects in insertion order), the account snapshot, the on-disk
snapshot file written by `_write_positions` (`none` = file absent), the
asset registry's per-code beta, and the error log. -/
structure DMState where
  positions : Ledger
  strategies : List Strategy
  account : Account
  disk : Option Ledger
  assets_beta : List (String × Int)
  log : List String
deriving DecidableEq

def keyOfPosition (p : PositionData) : String :=
  position_key p.code p.asset_type p.expiration p.strike p.right p.ownership

def keyOfTrade (t : TradeData) : String :=
  position_key t.code t.asset_type t.expiration t.strike t.right t.ownership

/-- `DataManager._account_item` (lines 67-78): apply the account update,
swallowing any exception into the log. -/
def account_item (st : DMState) (item : AccountItem) : DMState :=
  match st.account.update_item_value item with
  | .ok a => { st with account := a }
  | .error _ => { st with log := st.log ++ ["Failed to update the account object"] }

/-- `DataManager._position` (lines 80-96): store the event's record in the
positions dict under the key derived from the event's own six fields. -/
def positionApply (st : DMState) (e : PositionEvent) : DMState :=
  { st with positions :=
      (insertL (position_key e.code e.asset_type e.expiration e.strike e.right e.ownership)
        e.record st.positions) }

/-- `DataManager._write_positions` (lines 232-240): overwrite the snapshot
file with the full positions dict; a failing write (the `writeOk` flag
models the ambient file system) is caught and logged, leaving the previous
file in place. -/
def write_positions (st : DMState) (writeOk : Bool) : DMState :=
  if writeOk then { st with disk := some st.positions }
  else { st with log := st.log ++ ["[_write_positions] failed to open positions file"] }

/-- `DataManager._commission_report` (lines 98-119): look up the position at
the trade's derived key (KeyError = UnknownPosition when absent), append
the trade to its trade sequence, then persist the full dict. -/
def commission_report (st : DMState) (trade : TradeData) (writeOk : Bool) :
    Option DMError × DMState :=
  let key := keyOfTrade trade
  match lookupL key st.positions with
  | none => (some .unknownPosition, st)
  | some pos =>
      let st' := { st with positions :=
        (insertL key { pos with trades := pos.trades ++ [trade] } st.positions) }
      (none, write_positions st' writeOk)

/-- The body of the loop of `update_positions_trades` (lines 249-254): if
the entry's key is in the loaded snapshot `bk` and the persisted trade list
is non-empty, assign it to the live position (`p.trades = positions_bk[k].trades`). -/
def mergeEntry (bk : Ledger) (kp : String × PositionData) : String × PositionData :=
  match lookupL kp.1 bk with
  | some q => if q.trades = [] then kp else (kp.1, { kp.2 with trades := q.trades })
  | none => kp

/-- `DataManager.update_positions_trades` (lines 242-257): read the snapshot
file (a missing file is caught and logged); for each live position whose
key is present in the snapshot with a non-empty persisted trade list,
assign the persisted trade list to the live position. -/
def update_positions_trades (st : DMState) : DMState :=
  match st.disk with
  | none => { st with log := st.log ++ ["Failed to open positions file"] }
  | some bk => { st with positions := st.positions.map (mergeEntry bk) }

def lookupBeta (code : String) : List (String × Int) → Option Int
  | [] => none
  | kv :: t => if kv.1 = code then some kv.2 else lookupBeta code t

/-- `[p.trades[-1] for p in self._positions.values() if p.trades and p.quantity]`
(line 266). -/
def lastTrades (l : Ledger) : List TradeData :=
  l.filterMap (fun kp =>
    if kp.2.trades ≠ [] ∧ kp.2.quantity ≠ 0 then kp.2.trades.getLast? else none)

/-- One iteration of the trade loop of `DataManager.update_positions`
(lines 270-291): unpack the single option returned by the data source
(`[option] = ...` raises ValueError = AmbiguousLookup otherwise), re-derive
the key from the returned option plus the trade's ownership, look up the
position (KeyError when absent), overwrite its economics and denormalized
trade-attribution fields in place, and last its beta from the asset
registry (KeyError if the code is unknown; by that point the other ten
fields are already written, matching the source's field-by-field
mutation order). -/
def refresh_step (co : Nat → List OptionData) (st : DMState) (trade : TradeData) :
    Option DMError × DMState :=
  match co trade.data_source_id with
  | [opt] =>
      let key := position_key opt.code opt.asset_type opt.expiration opt.strike
        opt.right trade.ownership
      match lookupL key st.positions with
      | none => (some .unknownPosition, st)
      | some pos =>
          let pos1 := { pos with
            option_price := some opt.option_price,
            underlying_price := some opt.underlying_price,
            delta := some opt.delta,
            DTE := some opt.DTE,
            trade_price := some trade.price,
            trade_time := some trade.time,
            algorithm := some trade.algorithm,
            strategy_type := some trade.strategy_type,
            strategy_id := some trade.strategy_id,
            rol := some trade.rol }
          let st1 := { st with positions := insertL key pos1 st.positions }
          match lookupBeta opt.code st.assets_beta with
          | none => (some .unknownAsset, st1)
          | some b =>
              (none, { st1 with positions :=
                (insertL key { pos1 with beta := some b } st1.positions) })
  | _ => (some .ambiguousLookup, st)

def refresh_fold (co : Nat → List OptionData) (st : DMState) :
    List TradeData → Option DMError × DMState
  | [] => (none, st)
  | tr :: trs =>
      match refresh_step co st tr with
      | (none, st') => refresh_fold co st' trs
      | (some e, st') => (some e, st')

/-- `DataManager.update_positions` (lines 259-294): merge persisted trades,
collect the last trade of every position with trades and non-zero quantity,
refresh each in order, then persist; an exception mid-loop propagates,
skipping the final persist while keeping the mutations made so far. -/
def update_positions (co : Nat → List OptionData) (st : DMState) (writeOk : Bool) :
    Option DMError × DMState :=
  let st1 := update_positions_trades st
  match refresh_fold co st1 (lastTrades st1.positions) with
  | (none, st2) => (none, write_positions st2 writeOk)
  | (some e, st2) => (some e, st2)

def addPositionAt (i : Nat) (p : PositionData) : List Strategy → List Strategy
  | [] => []
  | s :: rest =>
      match i with
      | 0 => s.add_position p :: rest
      | Nat.succ j => s :: addPositionAt j p rest

/-- The loop of `DataManager.update_strategies` (lines 299-305), threading
the loop variable `s` (`none` before its first binding; referencing it then
is Python's NameError).  Faithful to the source's slips: the membership
test is against the **positions** dict's keys, and the strategies dict is
keyed by the Strategy object itself, so every entry is a fresh object. -/
def strategies_loop (positions : Ledger) :
    List (String × PositionData) → List Strategy → Option Nat →
      Option DMError × List Strategy
  | [], strategies, _ => (none, strategies)
  | kp :: rest, strategies, sVar =>
      let p := kp.2
      let idInPositions := match p.strategy_id with
        | some sid => containsL sid positions
        | none => false
      if idInPositions then
        match sVar with
        | none => (some .nameError, strategies)
        | some i => strategies_loop positions rest (addPositionAt i p strategies) sVar
      else
        let s := create_strategy p.strategy_type p.strategy_id
        let i := strategies.length
        strategies_loop positions rest (addPositionAt i p (strategies ++ [s])) (some i)

/-- `DataManager.update_strategies` (lines 296-305). -/
def update_strategies (st : DMState) : Option DMError × DMState :=
  match strategies_loop st.positions st.positions st.strategies none with
  | (e, strategies') => (e, { st with strategies := strategies' })

/-- The economics fields of a position that `update_positions` overwrites:
option/underlying price, delta, DTE, the denormalized trade-attribution
fields, and beta (lines 280-290). -/
def econOf (p : PositionData) :
    Option Int × Option Int × Option Int × Option Int × Option Int × Option Nat
      × Option String × Option String × Option String × Option String × Option Int :=
  (p.option_price, p.underlying_price, p.delta, p.DTE, p.trade_price, p.trade_time,
    p.algorithm, p.strategy_type, p.strategy_id, p.rol, p.beta)

/-- The positions-dict key a refresh iteration would write to, derived from
the single option the data source returns for the trade's identifier
(`none` when that result is not a singleton). -/
def stepKeyOf (co : Nat → List OptionData) (trade : TradeData) : Option String :=
  match co trade.data_source_id with
  | [opt] => some (position_key opt.code opt.asset_type opt.expiration opt.strike
      opt.right trade.ownership)
  | _ => none

/-- Claim C10's invariant: every stored entry is keyed by the composite key
recomputed from its own identity fields. -/
def WellKeyed (l : Ledger) : Prop := ∀ kp ∈ l, kp.1 = keyOfPosition kp.2

/-- The operations quantified over by claim C10: position events, trade
events, history merges, and economics refreshes. -/
inductive DMOp
  | posEvent (e : PositionEvent)
  | tradeEvent (t : TradeData) (writeOk : Bool)
  | merge
  | refresh (co : Nat → List OptionData) (writeOk : Bool)

def stepOp (st : DMState) : DMOp → DMState
  | .posEvent e => positionApply st e
  | .tradeEvent t w => (commission_report st t w).2
  | .merge => update_positions_trades st
  | .refresh co w => (update_positions co st w).2

def runOps : DMState → List DMOp → DMState
  | st, [] => st
  | st, op :: ops => runOps (stepOp st op) ops

/-- `DataManager.__init__` (lines 49-65): empty positions and strategies
dicts; the account object, any pre-existing snapshot file and the asset
registry are ambient. -/
def initState (account : Account) (disk : Option Ledger)
    (assets_beta : List (String × Int)) : DMState :=
  { positions := [], strategies := [], account := account, disk := disk,
    assets_beta := assets_beta, log := [] }

def acct0 : Account := { buying_power := 0, cash := 0, funds := 0 }

/-- Concrete trade fixture: key "EEM_OPT_NA_NA_CALL_BUY". -/
def trFix (i : Nat) : TradeData :=
  { code := "EEM", asset_type := .option, expiration := none, strike := none,
    right := some .call, ownership := some .buyer, data_source_id := i,
    price := 1, time := i, algorithm := "A", strategy_type := "V",
    strategy_id := "SID", rol := "N" }

/-- Concrete position-event fixture with the same key fields as `trFix`. -/
def evFix : PositionEvent :=
  { code := "EEM", asset_type := .option, expiration := none, strike := none,
    right := some .call, ownership := some .buyer, quantity := 1 }

/-- State holding the position created by `evFix` (used by the scenario
witnesses). -/
def stFix : DMState := positionApply (initState acct0 none []) evFix

/-- State after `evFix` and one `trFix 0` trade event. -/
def stFix1 : DMState := (commission_report stFix (trFix 0) true).2

/-- Live position with a non-empty trade sequence (C1 counterexample). -/
def pLive : PositionData := { evFix.record with trades := [trFix 1] }

/-- Persisted counterpart with a different non-empty trade sequence. -/
def pBk : PositionData := { evFix.record with trades := [trFix 2] }

/-- C1 counterexample state: the live ledger holds "K" with trades
`[trFix 1]`, the snapshot holds "K" with trades `[trFix 2]`. -/
def stC1 : DMState :=
  { initState acct0 (some [("K", pBk)]) [] with positions := [("K", pLive)] }

/-- Option fixture returned by the misbehaving data source of the C4
witness. -/
def optFix : OptionData :=
  { code := "EEM", asset_type := .option, expiration := none, strike := none,
    right := some .call, option_price := 2, underlying_price := 42,
    delta := 1, DTE := 30 }

/-- A data source violating the one-result contract: every identifier
resolves to two options. -/
def coBad : Nat → List OptionData := fun _ => [optFix, optFix]

/-- C4 witness state: one position with a trade and non-zero quantity. -/
def stC4 : DMState :=
  { initState acct0 none [] with
      positions := [("EEM_OPT_NA_NA_CALL_BUY", { evFix.record with trades := [trFix 5] })] }

/-- Position fixtures sharing one strategy id (C5 failing input). -/
def pS1 : PositionData := { evFix.record with strategy_id := some "SID", quantity := 1 }

def pS2 : PositionData := { evFix.record with strategy_id := some "SID", quantity := 2 }

/-- C5 failing input: two positions share strategy id "SID", which is not a
positions-dict key. -/
def stC5 : DMState :=
  { initState acct0 none [] with positions := [("K1", pS1), ("K2", pS2)] }

/-- C5 NameError input: a single position whose strategy id coincides with
its own positions-dict key. -/
def stC5b : DMState :=
  { initState acct0 none [] with
      positions := [("K1", { evFix.record with strategy_id := some "K1" })] }

theorem charToDigit_digitChar : ∀ d < 10, charToDigit (Nat.digitChar d) = d := by
  decide

theorem map_digitChar_cancel {l : List Nat} (h : ∀ d ∈ l, d < 10) :
    (l.map Nat.digitChar).map charToDigit = l := by
  induction l with
  | nil => rfl
  | cons a t ih =>
      have ha : a < 10 := h a (List.mem_cons_self a t)
      have ht : ∀ d ∈ t, d < 10 := fun d hd => h d (List.mem_cons_of_mem a hd)
      simp [charToDigit_digitChar a ha, ih ht]

theorem string_eq_of_data {a b : String} (h : a.data = b.data) : a = b := by
  cases a
  cases b
  exact congrArg String.mk h

theorem natStr_injective : Function.Injective natStr := by
  intro m n h
  have hdata : ((Nat.digits 10 m).map Nat.digitChar).reverse
      = ((Nat.digits 10 n).map Nat.digitChar).reverse := congrArg String.data h
  have hmap : (Nat.digits 10 m).map Nat.digitChar
      = (Nat.digits 10 n).map Nat.digitChar := List.reverse_injective hdata
  have hm : ∀ d ∈ Nat.digits 10 m, d < 10 :=
    fun d hd => Nat.digits_lt_base (by norm_num) hd
  have hn : ∀ d ∈ Nat.digits 10 n, d < 10 :=
    fun d hd => Nat.digits_lt_base (by norm_num) hd
  have hdig : Nat.digits 10 m = Nat.digits 10 n := by
    have := congrArg (List.map charToDigit) hmap
    rwa [map_digitChar_cancel hm, map_digitChar_cancel hn] at this
  calc m = Nat.ofDigits 10 (Nat.digits 10 m) := (Nat.ofDigits_digits 10 m).symm
    _ = Nat.ofDigits 10 (Nat.digits 10 n) := by rw [hdig]
    _ = n := Nat.ofDigits_digits 10 n

theorem natStr_chars {n : Nat} {c : Char} (h : c ∈ (natStr n).data) :
    ∃ d, d < 10 ∧ c = Nat.digitChar d := by
  have h' : c ∈ (Nat.digits 10 n).map Nat.digitChar := List.mem_reverse.mp h
  obtain ⟨d, hd, hc⟩ := List.mem_map.mp h'
  exact ⟨d, Nat.digits_lt_base (by norm_num) hd, hc.symm⟩

theorem underscore_not_mem_natStr (n : Nat) : '_' ∉ (natStr n).data := by
  intro h
  obtain ⟨d, hd, hc⟩ := natStr_chars h
  have : ∀ d < 10, Nat.digitChar d ≠ '_' := by decide
  exact this d hd hc.symm

theorem natStr_ne_NA (n : Nat) : natStr n ≠ "NA" := by
  intro h
  have hmem : 'N' ∈ (natStr n).data := by
    rw [h]
    decide
  obtain ⟨d, hd, hc⟩ := natStr_chars hmem
  have : ∀ d < 10, Nat.digitChar d ≠ 'N' := by decide
  exact this d hd hc.symm

theorem peel_left : ∀ (a b x y : List Char), '_' ∉ a → '_' ∉ b →
    a ++ '_' :: x = b ++ '_' :: y → a = b ∧ x = y := by
  intro a
  induction a with
  | nil =>
      intro b x y _ hb h
      cases b with
      | nil => simpa using h
      | cons d bt =>
          simp only [List.nil_append, List.cons_append, List.cons.injEq] at h
          exact absurd (by rw [← h.1]; exact List.mem_cons_self '_' bt) hb
  | cons c ct ih =>
      intro b x y ha hb h
      cases b with
      | nil =>
          simp only [List.nil_append, List.cons_append, List.cons.injEq] at h
          exact absurd (by rw [h.1]; exact List.mem_cons_self '_' ct) ha
      | cons d bt =>
          simp only [List.cons_append, List.cons.injEq] at h
          have ha' : '_' ∉ ct := fun hm => ha (List.mem_cons_of_mem c hm)
          have hb' : '_' ∉ bt := fun hm => hb (List.mem_cons_of_mem d hm)
          obtain ⟨h1, h2⟩ := ih bt x y ha' hb' h.2
          exact ⟨by rw [h.1, h1], h2⟩

theorem peel_right (x y a b : List Char) (ha : '_' ∉ a) (hb : '_' ∉ b)
    (h : x ++ '_' :: a = y ++ '_' :: b) : x = y ∧ a = b := by
  have h' : a.reverse ++ '_' :: x.reverse = b.reverse ++ '_' :: y.reverse := by
    have hr := congrArg List.reverse h
    simpa [List.reverse_append, List.append_assoc] using hr
  have har : '_' ∉ a.reverse := fun hm => ha (List.mem_reverse.mp hm)
  have hbr : '_' ∉ b.reverse := fun hm => hb (List.mem_reverse.mp hm)
  obtain ⟨h1, h2⟩ := peel_left a.reverse b.reverse x.reverse y.reverse har hbr h'
  exact ⟨List.reverse_injective h2, List.reverse_injective h1⟩

theorem key_chunks_inj
    {c₁ c₂ t₁ t₂ e₁ e₂ s₁ s₂ r₁ r₂ o₁ o₂ : List Char}
    (ht₁ : '_' ∉ t₁) (ht₂ : '_' ∉ t₂) (he₁ : '_' ∉ e₁) (he₂ : '_' ∉ e₂)
    (hs₁ : '_' ∉ s₁) (hs₂ : '_' ∉ s₂) (hr₁ : '_' ∉ r₁) (hr₂ : '_' ∉ r₂)
    (ho₁ : '_' ∉ o₁) (ho₂ : '_' ∉ o₂)
    (h : c₁ ++ '_' :: (t₁ ++ '_' :: (e₁ ++ '_' :: (s₁ ++ '_' :: (r₁ ++ '_' :: o₁))))
       = c₂ ++ '_' :: (t₂ ++ '_' :: (e₂ ++ '_' :: (s₂ ++ '_' :: (r₂ ++ '_' :: o₂))))) :
    c₁ = c₂ ∧ t₁ = t₂ ∧ e₁ = e₂ ∧ s₁ = s₂ ∧ r₁ = r₂ ∧ o₁ = o₂ := by
  have h5 : (c₁ ++ '_' :: (t₁ ++ '_' :: (e₁ ++ '_' :: (s₁ ++ '_' :: r₁)))) ++ '_' :: o₁
          = (c₂ ++ '_' :: (t₂ ++ '_' :: (e₂ ++ '_' :: (s₂ ++ '_' :: r₂)))) ++ '_' :: o₂ := by
    simpa only [List.append_assoc, List.cons_append] using h
  obtain ⟨h5L, ho⟩ := peel_right _ _ _ _ ho₁ ho₂ h5
  have h4 : (c₁ ++ '_' :: (t₁ ++ '_' :: (e₁ ++ '_' :: s₁))) ++ '_' :: r₁
          = (c₂ ++ '_' :: (t₂ ++ '_' :: (e₂ ++ '_' :: s₂))) ++ '_' :: r₂ := by
    simpa only [List.append_assoc, List.cons_append] using h5L
  obtain ⟨h4L, hr⟩ := peel_right _ _ _ _ hr₁ hr₂ h4
  have h3 : (c₁ ++ '_' :: (t₁ ++ '_' :: e₁)) ++ '_' :: s₁
          = (c₂ ++ '_' :: (t₂ ++ '_' :: e₂)) ++ '_' :: s₂ := by
    simpa only [List.append_assoc, List.cons_append] using h4L
  obtain ⟨h3L, hs⟩ := peel_right _ _ _ _ hs₁ hs₂ h3
  have h2 : (c₁ ++ '_' :: t₁) ++ '_' :: e₁ = (c₂ ++ '_' :: t₂) ++ '_' :: e₂ := by
    simpa only [List.append_assoc, List.cons_append] using h3L
  obtain ⟨h2L, he⟩ := peel_right _ _ _ _ he₁ he₂ h2
  obtain ⟨hc, ht⟩ := peel_right _ _ _ _ ht₁ ht₂ h2L
  exact ⟨hc, ht, he, hs, hr, ho⟩

theorem underscore_data : ("_" : String).data = ['_'] := rfl

theorem position_key_data (code : String) (t : AssetType) (e : Option Nat) (s : Option Nat)
    (r : Option OptionRight) (o : Option OwnershipType) :
    (position_key code t e s r o).data
      = code.data ++ '_' :: ((AssetType.value t).data ++ '_' :: ((expirationStr e).data
        ++ '_' :: ((strikeStr s).data ++ '_' :: ((rightStr r).data
        ++ '_' :: (ownershipStr o).data)))) := by
  simp [position_key, String.data_append, underscore_data, List.append_assoc]

theorem underscore_not_mem_assetTypeValue (t : AssetType) : '_' ∉ (AssetType.value t).data := by
  cases t <;> decide

theorem underscore_not_mem_expirationStr (e : Option Nat) : '_' ∉ (expirationStr e).data := by
  cases e with
  | none => decide
  | some d => exact underscore_not_mem_natStr d

theorem underscore_not_mem_strikeStr (s : Option Nat) : '_' ∉ (strikeStr s).data := by
  cases s with
  | none => decide
  | some v => exact underscore_not_mem_natStr v

theorem underscore_not_mem_rightStr (r : Option OptionRight) : '_' ∉ (rightStr r).data := by
  cases r with
  | none => decide
  | some v => cases v <;> decide

theorem underscore_not_mem_ownershipStr (o : Option OwnershipType) :
    '_' ∉ (ownershipStr o).data := by
  cases o with
  | none => decide
  | some v => cases v <;> decide

theorem assetTypeValue_inj {a b : AssetType} (h : AssetType.value a = AssetType.value b) :
    a = b := by
  cases a <;> cases b <;> revert h <;> decide

theorem expirationStr_inj {x y : Option Nat} (h : expirationStr x = expirationStr y) : x = y := by
  cases x with
  | none =>
      cases y with
      | none => rfl
      | some d => exact absurd h.symm (natStr_ne_NA d)
  | some d =>
      cases y with
      | none => exact absurd h (natStr_ne_NA d)
      | some d₂ => exact congrArg some (natStr_injective h)

theorem strikeStr_inj {x y : Option Nat} (h : strikeStr x = strikeStr y) : x = y := by
  cases x with
  | none =>
      cases y with
      | none => rfl
      | some d => exact absurd h.symm (natStr_ne_NA d)
  | some d =>
      cases y with
      | none => exact absurd h (natStr_ne_NA d)
      | some d₂ => exact congrArg some (natStr_injective h)

theorem rightStr_inj {x y : Option OptionRight} (h : rightStr x = rightStr y) : x = y := by
  cases x with
  | none =>
      cases y with
      | none => rfl
      | some v => revert h; cases v <;> decide
  | some v =>
      cases y with
      | none => revert h; cases v <;> decide
      | some w => revert h; cases v <;> cases w <;> decide

theorem ownershipStr_inj {x y : Option OwnershipType} (h : ownershipStr x = ownershipStr y) :
    x = y := by
  cases x with
  | none =>
      cases y with
      | none => rfl
      | some v => revert h; cases v <;> decide
  | some v =>
      cases y with
      | none => revert h; cases v <;> decide
      | some w => revert h; cases v <;> cases w <;> decide

theorem position_key_fields_eq
    {c₁ c₂ : String} {t₁ t₂ : AssetType} {e₁ e₂ s₁ s₂ : Option Nat}
    {r₁ r₂ : Option OptionRight} {o₁ o₂ : Option OwnershipType}
    (h : position_key c₁ t₁ e₁ s₁ r₁ o₁ = position_key c₂ t₂ e₂ s₂ r₂ o₂) :
    c₁ = c₂ ∧ t₁ = t₂ ∧ e₁ = e₂ ∧ s₁ = s₂ ∧ r₁ = r₂ ∧ o₁ = o₂ := by
  have hd := congrArg String.data h
  rw [position_key_data, position_key_data] at hd
  obtain ⟨hc, ht, he, hs, hr, ho⟩ := key_chunks_inj
    (underscore_not_mem_assetTypeValue t₁) (underscore_not_mem_assetTypeValue t₂)
    (underscore_not_mem_expirationStr e₁) (underscore_not_mem_expirationStr e₂)
    (underscore_not_mem_strikeStr s₁) (underscore_not_mem_strikeStr s₂)
    (underscore_not_mem_rightStr r₁) (underscore_not_mem_rightStr r₂)
    (underscore_not_mem_ownershipStr o₁) (underscore_not_mem_ownershipStr o₂) hd
  exact ⟨string_eq_of_data hc, assetTypeValue_inj (string_eq_of_data ht),
    expirationStr_inj (string_eq_of_data he), strikeStr_inj (string_eq_of_data hs),
    rightStr_inj (string_eq_of_data hr), ownershipStr_inj (string_eq_of_data ho)⟩

theorem containsL_eq_false_iff {k : String} {l : Ledger} :
    containsL k l = false ↔ ∀ kp ∈ l, kp.1 ≠ k := by
  induction l with
  | nil => simp [containsL]
  | cons kp t ih =>
      by_cases h : kp.1 = k
      · simp [containsL, h]
      · simp [containsL, h, ih]

theorem replaceL_of_not_contains {k : String} {v : PositionData} {l : Ledger}
    (h : containsL k l = false) : replaceL k v l = l := by
  induction l with
  | nil => rfl
  | cons kp t ih =>
      have hk : kp.1 ≠ k := (containsL_eq_false_iff.mp h) kp (List.mem_cons_self kp t)
      have ht : containsL k t = false := by
        rw [containsL_eq_false_iff]
        exact fun q hq => (containsL_eq_false_iff.mp h) q (List.mem_cons_of_mem kp hq)
      simp [replaceL, hk, ih ht]

theorem replaceL_replaceL (k : String) (v : PositionData) (l : Ledger) :
    replaceL k v (replaceL k v l) = replaceL k v l := by
  induction l with
  | nil => rfl
  | cons kp t ih =>
      by_cases h : kp.1 = k
      · simp [replaceL, h, ih]
      · simp [replaceL, h, ih]

theorem containsL_replaceL (k k' : String) (v : PositionData) (l : Ledger) :
    containsL k' (replaceL k v l) = containsL k' l := by
  induction l with
  | nil => rfl
  | cons kp t ih =>
      by_cases h : kp.1 = k
      · by_cases h' : k = k'
        · simp [replaceL, containsL, h, h', ih]
        · simp [replaceL, containsL, h, h', ih]
      · simp [replaceL, containsL, h, ih]

theorem containsL_append_single (k : String) (v : PositionData) (l : Ledger) :
    containsL k (l ++ [(k, v)]) = true := by
  induction l with
  | nil => simp [containsL]
  | cons kp t ih =>
      by_cases h : kp.1 = k
      · simp [containsL, h]
      · simp [containsL, h, ih]

theorem replaceL_append (k : String) (v : PositionData) (l₁ l₂ : Ledger) :
    replaceL k v (l₁ ++ l₂) = replaceL k v l₁ ++ replaceL k v l₂ := by
  induction l₁ with
  | nil => rfl
  | cons kp t ih =>
      by_cases h : kp.1 = k
      · simp [replaceL, h, ih]
      · simp [replaceL, h, ih]

theorem lookupL_replaceL_self {k : String} {v : PositionData} {l : Ledger}
    (h : containsL k l = true) : lookupL k (replaceL k v l) = some v := by
  induction l with
  | nil => simp [containsL] at h
  | cons kp t ih =>
      by_cases hk : kp.1 = k
      · simp [replaceL, lookupL, hk]
      · have ht : containsL k t = true := by
          simpa [containsL, hk] using h
        simp [replaceL, lookupL, hk, ih ht]

theorem lookupL_append_single_self (k : String) (v : PositionData) (l : Ledger)
    (h : containsL k l = false) : lookupL k (l ++ [(k, v)]) = some v := by
  induction l with
  | nil => simp [lookupL]
  | cons kp t ih =>
      have hk : kp.1 ≠ k := (containsL_eq_false_iff.mp h) kp (List.mem_cons_self kp t)
      have ht : containsL k t = false := by
        rw [containsL_eq_false_iff]
        exact fun q hq => (containsL_eq_false_iff.mp h) q (List.mem_cons_of_mem kp hq)
      simp [lookupL, hk, ih ht]

theorem lookupL_insertL_self (k : String) (v : PositionData) (l : Ledger) :
    lookupL k (insertL k v l) = some v := by
  unfold insertL
  cases hc : containsL k l
  · simp only [Bool.false_eq_true, if_false]
    exact lookupL_append_single_self k v l hc
  · simp only [if_true]
    exact lookupL_replaceL_self hc

theorem lookupL_replaceL_ne {k k' : String} {v : PositionData} {l : Ledger}
    (h : k' ≠ k) : lookupL k' (replaceL k v l) = lookupL k' l := by
  induction l with
  | nil => rfl
  | cons kp t ih =>
      by_cases hk : kp.1 = k
      · simp [replaceL, lookupL, hk, Ne.symm h, ih]
      · by_cases hk' : kp.1 = k'
        · simp [replaceL, lookupL, hk, hk', h]
        · simp [replaceL, lookupL, hk, hk', ih]

theorem lookupL_insertL_ne {k k' : String} {v : PositionData} {l : Ledger}
    (h : k' ≠ k) : lookupL k' (insertL k v l) = lookupL k' l := by
  unfold insertL
  cases hc : containsL k l
  · simp only [Bool.false_eq_true, if_false]
    induction l with
    | nil => simp [lookupL, Ne.symm h]
    | cons kp t ih =>
        by_cases hk' : kp.1 = k'
        · simp [lookupL, hk']
        · have ht : containsL k t = false := by
            rcases containsL_eq_false_iff.mp hc with hall
            rw [containsL_eq_false_iff]
            exact fun q hq => hall q (List.mem_cons_of_mem kp hq)
          simp [lookupL, hk', ih ht]
  · simp only [if_true]
    exact lookupL_replaceL_ne h

theorem mem_of_lookupL {k : String} {p : PositionData} {l : Ledger}
    (h : lookupL k l = some p) : (k, p) ∈ l := by
  induction l with
  | nil => simp [lookupL] at h
  | cons kp t ih =>
      obtain ⟨k0, p0⟩ := kp
      by_cases hk : k0 = k
      · simp [lookupL, hk] at h
        subst hk
        subst h
        exact List.mem_cons_self _ _
      · simp [lookupL, hk] at h
        exact List.mem_cons_of_mem _ (ih h)

theorem mem_replaceL {k : String} {v : PositionData} {l : Ledger} {kp : String × PositionData}
    (h : kp ∈ replaceL k v l) : kp ∈ l ∨ kp = (k, v) := by
  induction l with
  | nil => simp [replaceL] at h
  | cons q t ih =>
      by_cases hk : q.1 = k
      · simp only [replaceL, hk, if_true, List.mem_cons] at h
        rcases h with h | h
        · exact Or.inr h
        · rcases ih h with h' | h'
          · exact Or.inl (List.mem_cons_of_mem q h')
          · exact Or.inr h'
      · simp only [replaceL, hk, if_false, List.mem_cons] at h
        rcases h with h | h
        · exact Or.inl (h ▸ List.mem_cons_self q t)
        · rcases ih h with h' | h'
          · exact Or.inl (List.mem_cons_of_mem q h')
          · exact Or.inr h'

theorem mem_insertL {k : String} {v : PositionData} {l : Ledger} {kp : String × PositionData}
    (h : kp ∈ insertL k v l) : kp ∈ l ∨ kp = (k, v) := by
  unfold insertL at h
  cases hc : containsL k l <;> rw [hc] at h
  · simp only [Bool.false_eq_true, if_false] at h
    rcases List.mem_append.mp h with h' | h'
    · exact Or.inl h'
    · exact Or.inr (by simpa using h')
  · simp only [if_true] at h
    exact mem_replaceL h

theorem insertL_insertL (k : String) (v : PositionData) (l : Ledger) :
    insertL k v (insertL k v l) = insertL k v l := by
  unfold insertL
  by_cases h : containsL k l = true
  · simp [h, containsL_replaceL, replaceL_replaceL]
  · have h' : containsL k l = false := by
      cases hc : containsL k l
      · rfl
      · exact absurd hc h
    rw [h']
    simp only [Bool.false_eq_true, if_false, containsL_append_single, if_true]
    rw [replaceL_append, replaceL_of_not_contains h']
    simp [replaceL]

theorem mergeEntry_fst (bk : Ledger) (kp : String × PositionData) :
    (mergeEntry bk kp).1 = kp.1 := by
  unfold mergeEntry
  cases lookupL kp.1 bk with
  | none => rfl
  | some q => by_cases h : q.trades = [] <;> simp [h]

theorem lookupL_map_mergeEntry (bk : Ledger) (k : String) (l : Ledger) :
    lookupL k (l.map (mergeEntry bk))
      = (lookupL k l).map (fun p => (mergeEntry bk (k, p)).2) := by
  induction l with
  | nil => rfl
  | cons kp t ih =>
      obtain ⟨k0, p0⟩ := kp
      by_cases hk : k0 = k
      · subst hk
        simp [lookupL, mergeEntry_fst]
      · simp [lookupL, mergeEntry_fst, hk, ih]

theorem keys_map_mergeEntry (bk : Ledger) (l : Ledger) :
    (l.map (mergeEntry bk)).map Prod.fst = l.map Prod.fst := by
  rw [List.map_map]
  exact List.map_congr_left (fun kp _ => mergeEntry_fst bk kp)

/-- **C9**: for every ledger state and every position event, applying the
same position event twice in succession yields a ledger state identical to
applying it once. -/
theorem positionApply_idempotent (st : DMState) (e : PositionEvent) :
    positionApply (positionApply st e) e = positionApply st e := by
  simp [positionApply, insertL_insertL]

/-- **C8**: a failure while writing the snapshot file during
`_write_positions` does not raise (the function is total and returns no
error), leaves the in-memory position mapping unchanged in every case,
leaves the previous on-disk snapshot in place on failure, and logs the
failure. -/
theorem write_positions_nonfatal (st : DMState) (writeOk : Bool) :
    (write_positions st writeOk).positions = st.positions
  ∧ (write_positions st false).disk = st.disk
  ∧ (write_positions st false).log
      = st.log ++ ["[_write_positions] failed to open positions file"] := by
  cases writeOk <;> simp [write_positions]

/-- **C2** (amended): the composite key function returns equal key strings
iff all six fields are pairwise equal under the NA-sentinel rule (missing
expiration, NaN strike, missing right, missing ownership all render as
"NA"); consequently two equities of the same code and type collide exactly
when their strike, right and ownership fields also agree, and an equity
(expiration none) never collides with an option carrying a concrete
expiration. -/
theorem position_key_deterministic :
    (∀ (c₁ c₂ : String) (t₁ t₂ : AssetType) (e₁ e₂ s₁ s₂ : Option Nat)
        (r₁ r₂ : Option OptionRight) (o₁ o₂ : Option OwnershipType),
        position_key c₁ t₁ e₁ s₁ r₁ o₁ = position_key c₂ t₂ e₂ s₂ r₂ o₂
          ↔ c₁ = c₂ ∧ t₁ = t₂ ∧ e₁ = e₂ ∧ s₁ = s₂ ∧ r₁ = r₂ ∧ o₁ = o₂)
  ∧ (∀ (c₁ c₂ : String) (t₁ t₂ : AssetType) (d : Nat) (s₁ s₂ : Option Nat)
        (r₁ r₂ : Option OptionRight) (o₁ o₂ : Option OwnershipType),
        position_key c₁ t₁ none s₁ r₁ o₁ ≠ position_key c₂ t₂ (some d) s₂ r₂ o₂) := by
  constructor
  · intro c₁ c₂ t₁ t₂ e₁ e₂ s₁ s₂ r₁ r₂ o₁ o₂
    constructor
    · exact position_key_fields_eq
    · rintro ⟨rfl, rfl, rfl, rfl, rfl, rfl⟩
      rfl
  · intro c₁ c₂ t₁ t₂ d s₁ s₂ r₁ r₂ o₁ o₂ h
    obtain ⟨-, -, he, -⟩ := position_key_fields_eq h
    exact Option.noConfusion he

/-- C2 counterexample: two equities (expiration none) of the same code and
asset type do **not** collide when their ownerships differ, refuting the
claim's "two equities of the same code and type always collide". -/
theorem position_key_equity_ownership_cx :
    position_key "EEM" AssetType.stock none none none (some OwnershipType.buyer)
      ≠ position_key "EEM" AssetType.stock none none none (some OwnershipType.seller) := by
  decide

theorem position_key_deterministic_witness :
    (position_key "EEM" AssetType.stock none none none none
        = position_key "EEM" AssetType.stock none none none none
      ↔ ("EEM" : String) = "EEM" ∧ AssetType.stock = AssetType.stock
          ∧ (none : Option Nat) = none ∧ (none : Option Nat) = none
          ∧ (none : Option OptionRight) = none ∧ (none : Option OwnershipType) = none)
  ∧ position_key "SPY" AssetType.stock none none none none
      ≠ position_key "SPY" AssetType.stock (some 1) none none none :=
  ⟨position_key_deterministic.1 "EEM" "EEM" _ _ _ _ _ _ _ _ _ _,
   position_key_deterministic.2 "SPY" "SPY" _ _ 1 _ _ _ _ _ _⟩

/-- **C6** (amended): a position event replaces the whole stored record at
the event's key with the fresh record built from the event - identity and
quantity come from the event while every other field, in particular the
accumulated trade sequence, is reset to its initial empty/unset value -
and entries at all other keys are untouched. -/
theorem positionApply_replaces_record (st : DMState) (e : PositionEvent) (k' : String)
    (h : k' ≠ position_key e.code e.asset_type e.expiration e.strike e.right e.ownership) :
    lookupL (position_key e.code e.asset_type e.expiration e.strike e.right e.ownership)
      (positionApply st e).positions = some e.record
  ∧ lookupL k' (positionApply st e).positions = lookupL k' st.positions := by
  constructor
  · simp [positionApply, lookupL_insertL_self]
  · simp [positionApply, lookupL_insertL_ne h]

/-- C6 counterexample: after a position event and one trade event the
stored position has one trade; replaying the same position event resets
the stored trade sequence to empty, so the event does not leave the trade
sequence unchanged. -/
theorem positionApply_wipes_trades_cx :
    (lookupL "EEM_OPT_NA_NA_CALL_BUY" stFix1.positions).map PositionData.trades
      = some [trFix 0]
  ∧ (lookupL "EEM_OPT_NA_NA_CALL_BUY" (positionApply stFix1 evFix).positions).map
      PositionData.trades = some [] := by
  decide

theorem positionApply_replaces_record_witness :
    ("ZZZ" ≠ position_key evFix.code evFix.asset_type evFix.expiration evFix.strike
        evFix.right evFix.ownership)
  ∧ (lookupL (position_key evFix.code evFix.asset_type evFix.expiration evFix.strike
        evFix.right evFix.ownership) (positionApply stFix1 evFix).positions
          = some evFix.record
     ∧ lookupL "ZZZ" (positionApply stFix1 evFix).positions
          = lookupL "ZZZ" stFix1.positions) :=
  ⟨by decide, positionApply_replaces_record stFix1 evFix "ZZZ" (by decide)⟩

/-- **C7**: an account-item event naming an attribute the account snapshot
does not recognize makes the underlying update fail with UnknownAttribute
while the handler leaves the account state exactly as it was (all-or-
nothing; the failure is logged); a recognized name sets exactly that
attribute to the given value. -/
theorem account_item_all_or_nothing (st : DMState) (item : AccountItem) :
    (item.tag ≠ "buying_power" → item.tag ≠ "cash" → item.tag ≠ "funds" →
       st.account.update_item_value item = Except.error DMError.unknownAttribute
     ∧ (account_item st item).account = st.account
     ∧ (account_item st item).log = st.log ++ ["Failed to update the account object"])
  ∧ (item.tag = "buying_power" →
       (account_item st item).account = { st.account with buying_power := item.value })
  ∧ (item.tag = "cash" →
       (account_item st item).account = { st.account with cash := item.value })
  ∧ (item.tag = "funds" →
       (account_item st item).account = { st.account with funds := item.value }) := by
  refine ⟨?_, ?_, ?_, ?_⟩
  · intro h1 h2 h3
    simp [account_item, Account.update_item_value, h1, h2, h3]
  · intro h
    simp [account_item, Account.update_item_value, h]
  · intro h
    simp [account_item, Account.update_item_value, h]
  · intro h
    simp [account_item, Account.update_item_value, h]

theorem account_item_all_or_nothing_witness :
    (stFix.account.update_item_value { tag := "bogus", value := 7 }
        = Except.error DMError.unknownAttribute
     ∧ (account_item stFix { tag := "bogus", value := 7 }).account = stFix.account
     ∧ (account_item stFix { tag := "bogus", value := 7 }).log
        = stFix.log ++ ["Failed to update the account object"])
  ∧ (account_item stFix { tag := "cash", value := 7 }).account
      = { stFix.account with cash := 7 } :=
  ⟨(account_item_all_or_nothing stFix { tag := "bogus", value := 7 }).1
      (by decide) (by decide) (by decide),
   (account_item_all_or_nothing stFix { tag := "cash", value := 7 }).2.2.1 rfl⟩

/-- **C1** (amended): for every ledger state with a persisted snapshot,
`update_positions_trades` preserves the key sequence exactly (in
particular it never adds to the ledger a key that is present in the
snapshot but absent from the live ledger); a live position whose key is
absent from the snapshot, or whose persisted counterpart has an empty
trade sequence, is unchanged; and a live position whose persisted
counterpart has a non-empty trade sequence has its trade sequence
**replaced** by the persisted one - even when its own live sequence was
already non-empty. -/
theorem update_positions_trades_amended (st : DMState) (bk : Ledger)
    (hdisk : st.disk = some bk) :
    ((update_positions_trades st).positions.map Prod.fst = st.positions.map Prod.fst)
  ∧ (∀ k p, lookupL k st.positions = some p → lookupL k bk = none →
      lookupL k (update_positions_trades st).positions = some p)
  ∧ (∀ k p q, lookupL k st.positions = some p → lookupL k bk = some q → q.trades = [] →
      lookupL k (update_positions_trades st).positions = some p)
  ∧ (∀ k p q, lookupL k st.positions = some p → lookupL k bk = some q → q.trades ≠ [] →
      lookupL k (update_positions_trades st).positions
        = some { p with trades := q.trades }) := by
  have hpos : (update_positions_trades st).positions = st.positions.map (mergeEntry bk) := by
    unfold update_positions_trades
    rw [hdisk]
  refine ⟨?_, ?_, ?_, ?_⟩
  · rw [hpos]
    exact keys_map_mergeEntry bk st.positions
  · intro k p hp hbk
    rw [hpos, lookupL_map_mergeEntry, hp]
    simp [mergeEntry, hbk]
  · intro k p q hp hbk htr
    rw [hpos, lookupL_map_mergeEntry, hp]
    simp [mergeEntry, hbk, htr]
  · intro k p q hp hbk htr
    rw [hpos, lookupL_map_mergeEntry, hp]
    simp [mergeEntry, hbk, htr]

/-- C1 counterexample: with live trades `[trFix 1]` (non-empty) and
persisted trades `[trFix 2]` at the same key, the merge overwrites the
live sequence with the persisted one, refuting "never overwrites a
position's already non-empty trade sequence". -/
theorem update_positions_trades_overwrite_cx :
    (lookupL "K" stC1.positions).map PositionData.trades = some [trFix 1]
  ∧ (lookupL "K" (update_positions_trades stC1).positions).map PositionData.trades
      = some [trFix 2] := by
  decide

theorem update_positions_trades_amended_witness :
    stC1.disk = some [("K", pBk)]
  ∧ lookupL "K" (update_positions_trades stC1).positions
      = some { pLive with trades := [trFix 2] } :=
  ⟨rfl, (update_positions_trades_amended stC1 [("K", pBk)] rfl).2.2.2 "K" pLive pBk
      (by decide) (by decide) (by decide)⟩

/-- **C3**: a trade event for a key with no live position fails with
UnknownPosition (the KeyError of `self._positions[key]`) leaving the state
unchanged; after a position event for that key it succeeds, appends the
trade at the end of the position's trade sequence, and persists the full
ledger synchronously. -/
theorem commission_report_ordering (st : DMState) (t : TradeData) :
    (lookupL (keyOfTrade t) st.positions = none →
       commission_report st t true = (some DMError.unknownPosition, st))
  ∧ (∀ pos, lookupL (keyOfTrade t) st.positions = some pos →
       (commission_report st t true).1 = none
     ∧ lookupL (keyOfTrade t) (commission_report st t true).2.positions
         = some { pos with trades := pos.trades ++ [t] }
     ∧ (commission_report st t true).2.disk
         = some (commission_report st t true).2.positions) := by
  constructor
  · intro h
    simp [commission_report, h]
  · intro pos h
    refine ⟨?_, ?_, ?_⟩ <;>
      simp [commission_report, h, write_positions, lookupL_insertL_self]

theorem commission_report_ordering_witness :
    commission_report (initState acct0 none []) (trFix 0) true
      = (some DMError.unknownPosition, initState acct0 none [])
  ∧ lookupL (keyOfTrade (trFix 0)) (commission_report stFix (trFix 0) true).2.positions
      = some { evFix.record with trades := [trFix 0] }
  ∧ lookupL (keyOfTrade (trFix 1)) (commission_report stFix1 (trFix 1) true).2.positions
      = some { evFix.record with trades := [trFix 0, trFix 1] }
  ∧ (commission_report stFix1 (trFix 1) true).2.disk
      = some (commission_report stFix1 (trFix 1) true).2.positions :=
  ⟨(commission_report_ordering (initState acct0 none []) (trFix 0)).1 (by decide),
   ((commission_report_ordering stFix (trFix 0)).2 evFix.record (by decide)).2.1,
   ((commission_report_ordering stFix1 (trFix 1)).2
      { evFix.record with trades := [trFix 0] } (by decide)).2.1,
   ((commission_report_ordering stFix1 (trFix 1)).2
      { evFix.record with trades := [trFix 0] } (by decide)).2.2⟩

theorem wellKeyed_insertL {l : Ledger} {k : String} {v : PositionData}
    (hw : WellKeyed l) (hk : k = keyOfPosition v) : WellKeyed (insertL k v l) := by
  intro kp hm
  rcases mem_insertL hm with h | h
  · exact hw kp h
  · rw [h]
    exact hk

theorem wellKeyed_lookup {l : Ledger} {k : String} {p : PositionData}
    (hw : WellKeyed l) (h : lookupL k l = some p) : k = keyOfPosition p :=
  hw (k, p) (mem_of_lookupL h)

theorem wellKeyed_map_mergeEntry {l : Ledger} (bk : Ledger) (hw : WellKeyed l) :
    WellKeyed (l.map (mergeEntry bk)) := by
  intro kp hm
  obtain ⟨kq, hkq, rfl⟩ := List.mem_map.mp hm
  have hq := hw kq hkq
  unfold mergeEntry
  cases lookupL kq.1 bk with
  | none => exact hq
  | some q =>
      by_cases h : q.trades = []
      · simpa [h] using hq
      · simpa [h] using hq

theorem wellKeyed_positionApply {st : DMState} (hw : WellKeyed st.positions)
    (e : PositionEvent) : WellKeyed (positionApply st e).positions := by
  unfold positionApply
  exact wellKeyed_insertL hw rfl

theorem wellKeyed_commission {st : DMState} (hw : WellKeyed st.positions)
    (t : TradeData) (w : Bool) : WellKeyed ((commission_report st t w).2.positions) := by
  unfold commission_report
  cases hl : lookupL (keyOfTrade t) st.positions with
  | none => simpa [hl] using hw
  | some pos =>
      have hk := wellKeyed_lookup hw hl
      cases w <;> simp [hl, write_positions] <;> exact wellKeyed_insertL hw hk

theorem wellKeyed_refresh_step {st : DMState} (hw : WellKeyed st.positions)
    (co : Nat → List OptionData) (tr : TradeData) :
    WellKeyed ((refresh_step co st tr).2.positions) := by
  unfold refresh_step
  cases hco : co tr.data_source_id with
  | nil => simpa [hco] using hw
  | cons o rest =>
      cases rest with
      | cons o2 r2 => simpa [hco] using hw
      | nil =>
          cases hl : lookupL (position_key o.code o.asset_type o.expiration o.strike
              o.right tr.ownership) st.positions with
          | none => simpa [hco, hl] using hw
          | some pos =>
              have hk := wellKeyed_lookup hw hl
              cases hb : lookupBeta o.code st.assets_beta with
              | none =>
                  simp only [hco, hl, hb]
                  exact wellKeyed_insertL hw hk
              | some b =>
                  simp only [hco, hl, hb]
                  exact wellKeyed_insertL (wellKeyed_insertL hw hk) hk

theorem wellKeyed_refresh_fold {co : Nat → List OptionData} :
    ∀ (trs : List TradeData) (st : DMState), WellKeyed st.positions →
      WellKeyed ((refresh_fold co st trs).2.positions) := by
  intro trs
  induction trs with
  | nil =>
      intro st hw
      exact hw
  | cons tr rest ih =>
      intro st hw
      unfold refresh_fold
      cases hstep : refresh_step co st tr with
      | mk err st' =>
          have hw' : WellKeyed st'.positions := by
            have h := wellKeyed_refresh_step hw co tr
            rw [hstep] at h
            exact h
          cases err with
          | none => simpa [hstep] using ih st' hw'
          | some e => simpa [hstep] using hw'

theorem wellKeyed_update_positions_trades {st : DMState} (hw : WellKeyed st.positions) :
    WellKeyed (update_positions_trades st).positions := by
  unfold update_positions_trades
  cases hd : st.disk with
  | none => simpa [hd] using hw
  | some bk => simpa [hd] using wellKeyed_map_mergeEntry bk hw

theorem wellKeyed_update_positions {st : DMState} (hw : WellKeyed st.positions)
    (co : Nat → List OptionData) (w : Bool) :
    WellKeyed ((update_positions co st w).2.positions) := by
  unfold update_positions
  have h1 := wellKeyed_update_positions_trades hw
  cases hf : refresh_fold co (update_positions_trades st)
      (lastTrades (update_positions_trades st).positions) with
  | mk err st2 =>
      have h2 := @wellKeyed_refresh_fold co
        (lastTrades (update_positions_trades st).positions) (update_positions_trades st) h1
      rw [hf] at h2
      cases err with
      | none => cases w <;> simp [hf, write_positions] <;> exact h2
      | some e => simpa [hf] using h2

theorem wellKeyed_stepOp {st : DMState} (hw : WellKeyed st.positions) (op : DMOp) :
    WellKeyed (stepOp st op).positions := by
  cases op with
  | posEvent e => exact wellKeyed_positionApply hw e
  | tradeEvent t w => exact wellKeyed_commission hw t w
  | merge => exact wellKeyed_update_positions_trades hw
  | refresh co w => exact wellKeyed_update_positions hw co w

theorem wellKeyed_runOps {st : DMState} (hw : WellKeyed st.positions) (ops : List DMOp) :
    WellKeyed (runOps st ops).positions := by
  induction ops generalizing st with
  | nil => exact hw
  | cons op rest ih => exact ih (wellKeyed_stepOp hw op)

/-- **C10**: starting from a freshly initialized manager (any pre-existing
snapshot file, account and asset registry), after any sequence of position
events, trade events, history merges and economics refreshes, every entry
of the ledger is stored under the key computed from its own identity
fields - no operation mutates a stored position's key fields. -/
theorem ledger_always_well_keyed (account : Account) (disk : Option Ledger)
    (ab : List (String × Int)) (ops : List DMOp) :
    WellKeyed (runOps (initState account disk ab) ops).positions := by
  refine wellKeyed_runOps ?_ ops
  intro kp hm
  simp [initState] at hm

theorem refresh_fold_append (co : Nat → List OptionData) (st : DMState)
    (pre rest : List TradeData) :
    refresh_fold co st (pre ++ rest)
      = (match refresh_fold co st pre with
         | (none, st') => refresh_fold co st' rest
         | (some e, st') => (some e, st')) := by
  induction pre generalizing st with
  | nil => simp [refresh_fold]
  | cons tr trs ih =>
      simp only [List.cons_append, refresh_fold]
      cases refresh_step co st tr with
      | mk err st' =>
          cases err with
          | none => simp [ih]
          | some e => simp

theorem refresh_step_preserves_other_key {co : Nat → List OptionData} {st : DMState}
    {tr : TradeData} {k : String} (hne : stepKeyOf co tr ≠ some k) :
    lookupL k ((refresh_step co st tr).2.positions) = lookupL k st.positions := by
  unfold refresh_step
  unfold stepKeyOf at hne
  cases hco : co tr.data_source_id with
  | nil => simp [hco]
  | cons o rest =>
      cases rest with
      | cons o2 r2 => simp [hco]
      | nil =>
          rw [hco] at hne
          have hk : position_key o.code o.asset_type o.expiration o.strike o.right
              tr.ownership ≠ k := by
            intro h
            exact hne (by simp [h])
          have hk' : k ≠ position_key o.code o.asset_type o.expiration o.strike o.right
              tr.ownership := Ne.symm hk
          cases hl : lookupL (position_key o.code o.asset_type o.expiration o.strike
              o.right tr.ownership) st.positions with
          | none => simp [hco, hl]
          | some pos =>
              cases hb : lookupBeta o.code st.assets_beta with
              | none => simp [hco, hl, hb, lookupL_insertL_ne hk']
              | some b => simp [hco, hl, hb, lookupL_insertL_ne hk']

theorem refresh_fold_preserves_other_key {co : Nat → List OptionData} {k : String} :
    ∀ (pre : List TradeData) (st stMid : DMState),
      refresh_fold co st pre = (none, stMid) →
      (∀ u ∈ pre, stepKeyOf co u ≠ some k) →
      lookupL k stMid.positions = lookupL k st.positions := by
  intro pre
  induction pre with
  | nil =>
      intro st stMid hfold _
      simp only [refresh_fold, Prod.mk.injEq, true_and] at hfold
      rw [hfold]
  | cons u us ih =>
      intro st stMid hfold hkeys
      simp only [refresh_fold] at hfold
      cases hstep : refresh_step co st u with
      | mk err st' =>
          rw [hstep] at hfold
          cases err with
          | some e => simp at hfold
          | none =>
              simp only at hfold
              have h1 : lookupL k st'.positions = lookupL k st.positions := by
                have hz := @refresh_step_preserves_other_key co st u k
                  (hkeys u (List.mem_cons_self u us))
                rw [hstep] at hz
                exact hz
              have h2 := ih st' stMid hfold
                (fun v hv => hkeys v (List.mem_cons_of_mem u hv))
              rw [h2, h1]

theorem econOf_mergeEntry (bk : Ledger) (k : String) (p : PositionData) :
    econOf (mergeEntry bk (k, p)).2 = econOf p := by
  unfold mergeEntry
  cases lookupL k bk with
  | none => rfl
  | some q => by_cases h : q.trades = [] <;> simp [h, econOf]

theorem econ_lookup_update_positions_trades (st : DMState) (k : String) :
    (lookupL k (update_positions_trades st).positions).map econOf
      = (lookupL k st.positions).map econOf := by
  unfold update_positions_trades
  cases hd : st.disk with
  | none => simp
  | some bk =>
      simp only [lookupL_map_mergeEntry]
      cases lookupL k st.positions with
      | none => rfl
      | some p => simp [econOf_mergeEntry]

/-- **C4**: during `update_positions`, if the data source's
`create_options` call for the trade under scrutiny returns zero results or
more than one result (while the earlier trades of the refresh list
completed and none of them wrote to the inspected key), the operation
fails loudly with AmbiguousLookup and the economics fields of the position
at that key are exactly as they were before the call. -/
theorem update_positions_ambiguous (co : Nat → List OptionData) (st : DMState)
    (w : Bool) (pre post : List TradeData) (tr : TradeData) (stMid : DMState)
    (k : String)
    (hsplit : lastTrades (update_positions_trades st).positions = pre ++ tr :: post)
    (hpre : refresh_fold co (update_positions_trades st) pre = (none, stMid))
    (hbad : (co tr.data_source_id).length ≠ 1)
    (hkeys : ∀ u ∈ pre, stepKeyOf co u ≠ some k) :
    (update_positions co st w).1 = some DMError.ambiguousLookup
  ∧ (lookupL k (update_positions co st w).2.positions).map econOf
      = (lookupL k st.positions).map econOf := by
  have hstep : refresh_step co stMid tr = (some DMError.ambiguousLookup, stMid) := by
    unfold refresh_step
    cases hco : co tr.data_source_id with
    | nil => rfl
    | cons o rest =>
        cases rest with
        | nil =>
            exfalso
            apply hbad
            rw [hco]
            rfl
        | cons o2 r2 => rfl
  have hfold : refresh_fold co (update_positions_trades st)
      (lastTrades (update_positions_trades st).positions)
        = (some DMError.ambiguousLookup, stMid) := by
    rw [hsplit, refresh_fold_append, hpre]
    simp only [refresh_fold, hstep]
  have hres : update_positions co st w = (some DMError.ambiguousLookup, stMid) := by
    unfold update_positions
    simp only [hfold]
  constructor
  · rw [hres]
  · rw [hres]
    have h1 := @refresh_fold_preserves_other_key co k pre
      (update_positions_trades st) stMid hpre hkeys
    rw [h1]
    exact econ_lookup_update_positions_trades st k

theorem update_positions_ambiguous_witness :
    lastTrades (update_positions_trades stC4).positions = [] ++ trFix 5 :: []
  ∧ (coBad (trFix 5).data_source_id).length ≠ 1
  ∧ (update_positions coBad stC4 true).1 = some DMError.ambiguousLookup
  ∧ (lookupL "EEM_OPT_NA_NA_CALL_BUY"
        (update_positions coBad stC4 true).2.positions).map econOf
      = (lookupL "EEM_OPT_NA_NA_CALL_BUY" stC4.positions).map econOf := by
  refine ⟨by decide, by decide, ?_⟩
  exact update_positions_ambiguous coBad stC4 true [] [] (trFix 5)
    (update_positions_trades stC4) "EEM_OPT_NA_NA_CALL_BUY"
    (by decide) rfl (by decide) (by simp)

/-- **C5** fails on the code: `update_strategies` compares each position's
strategy id against the **positions** dict's keys (not the strategies
dict) and keys the strategies dict by the freshly created Strategy object
itself, so two ledger positions sharing strategy id "SID" produce two
distinct singleton strategy groups instead of one group per strategy id,
and the result is not a mapping from strategy ids to Strategies; moreover
a position whose strategy id happens to equal a positions-dict key makes
the loop body reference its not-yet-bound variable `s` (NameError).  This
theorem evaluates the embedded code at both failing inputs. -/
theorem update_strategies_bug_eval :
    ((update_strategies stC5).1 = none
     ∧ (update_strategies stC5).2.strategies.map Strategy.strategy_id
         = [some "SID", some "SID"]
     ∧ (update_strategies stC5).2.strategies.map Strategy.positions = [[pS1], [pS2]])
  ∧ (update_strategies stC5b).1 = some DMError.nameError := by
  decide

end Optopus
